import Mathlib

deriving instance DecidableEq for Except

/-!
# Verification of the promlinter rule-to-metric validation engine

Shallow embedding of `main.go`: the rule source adapter (`getRules`),
the metric-reference extractor (`getMetrics`), the memoized existence
checker (`metricExists`) and the validation driver (`run`).

External collaborators (the promql parser, the Prometheus HTTP client,
Go's map iteration order and the wall clock) are modelled as oracle
parameters; the code of the repository itself is translated faithfully.
-/

namespace Promlinter

/-! ## PromQL expression trees (external parser's AST)

The extractor consumes old-style promql AST nodes.  The node kinds that
matter are `VectorSelector` and `MatrixSelector`, which carry a positional
metric name (possibly empty when the name is only given through a label
matcher); all other node kinds only contribute subtrees to the traversal. -/

mutual
inductive Expr where
  | vectorSelector (name : String)
  | matrixSelector (name : String) (range : Nat)
  | binaryExpr (op : String) (lhs rhs : Expr)
  | call (fn : String) (args : ExprList)
  | aggregateExpr (op : String) (param : ExprList) (body : Expr)
  | unaryExpr (op : String) (e : Expr)
  | parenExpr (e : Expr)
  | numberLiteral (v : Int)
  | stringLiteral (s : String)

/-- The argument vector of a `call` node (`promql.Expressions`), as its
own inductive so that tree traversals are structurally recursive. -/
inductive ExprList where
  | nil
  | cons (e : Expr) (es : ExprList)
end

mutual
/-- The traversal of `promql.Inspect` in `getMetrics`: visit every node of
the tree and record the name of each `VectorSelector` or `MatrixSelector`
whose positional name is non-empty (names are recorded in visit order,
with duplicates; the Go code inserts them into a set). -/
def collect : Expr → List String
  | .vectorSelector n => if n = "" then [] else [n]
  | .matrixSelector n _ => if n = "" then [] else [n]
  | .binaryExpr _ l r => collect l ++ collect r
  | .call _ args => collectList args
  | .aggregateExpr _ param body => collectList param ++ collect body
  | .unaryExpr _ e => collect e
  | .parenExpr e => collect e
  | .numberLiteral _ => []
  | .stringLiteral _ => []

def collectList : ExprList → List String
  | .nil => []
  | .cons e es => collect e ++ collectList es
end

/-- The set of metric names referenced by an expression, as the Go code's
`metrics map[string]struct{}` holds it: each collected name exactly once.
(`List.dedup` is a canonical representative of the key set; the order in
which Go hands the keys back is modelled separately by an iteration-order
oracle.) -/
def metricNames (e : Expr) : List String := (collect e).dedup

/-! ## Rule source adapter (`getRules`) -/

/-- A rule as the Prometheus v1 API reports it: recording and alerting
rules carry a query string; any other kind is opaque. -/
inductive Rule where
  | recording (query : String)
  | alerting (query : String)
  | other
  deriving Repr, DecidableEq

structure RuleGroup where
  rules : List Rule
  deriving Repr, DecidableEq

/-- The flattening loop of `getRules`: iterate over groups, within each
group over rules, appending the query of every recording or alerting rule
to the accumulator and skipping any other rule kind. -/
def getRules (groups : List RuleGroup) : List String :=
  groups.foldl
    (fun qs g =>
      g.rules.foldl
        (fun qs r =>
          match r with
          | .recording q => qs ++ [q]
          | .alerting q => qs ++ [q]
          | .other => qs)
        qs)
    []

/-- The query of a rule, when it has one (recording and alerting rules). -/
def ruleQuery : Rule → Option String
  | .recording q => some q
  | .alerting q => some q
  | .other => none

/-- Declarative reading of the spec for the rule source adapter: the
flat concatenation, in backend order, of each group's recording/alerting
queries in within-group order. -/
def specRuleQueries (groups : List RuleGroup) : List String :=
  groups.flatMap (fun g => g.rules.filterMap ruleQuery)

/-- `getRules` including the backend call: a listing failure is wrapped
and returned, aborting (`errors.Wrapf(err, "failed to get rules")`). -/
def getRulesE (resp : Except String (List RuleGroup)) : Except String (List String) :=
  match resp with
  | .error e => .error ("failed to get rules: " ++ e)
  | .ok groups => .ok (getRules groups)

/-! ## Existence checker with memoization (`metricExists`)

The linter state is the `metrics map[string]bool` cache, extended here
with a log of the backend `Series` calls actually issued (each entry
records the matcher and the start/end instants of the request), so that
"how many backend calls were made" is part of the model.

The backend is an oracle `series : Nat → String → Nat → Nat → Except String Nat`
mapping (index of the call in the run, metric name, start instant, end
instant) to either a transport error or the number of matched series
(`len(lset)`).  Indexing calls by position lets a single oracle describe
transient failures.  The wall clock `time.Now()` is the oracle `now`. -/

/-- One backend `Series` request as issued by `metricExists`:
the metric-name matcher and the start/end instants of the window. -/
structure SeriesCall where
  name : String
  startT : Nat
  endT : Nat
  deriving Repr, DecidableEq

structure LinterState where
  metrics : List (String × Bool)
  calls : List SeriesCall
  deriving Repr, DecidableEq

/-- The state the driver starts from: empty cache, no calls issued. -/
def initState : LinterState := ⟨[], []⟩

/-- Go's `v, ok := m[k]` on the cache (keys are inserted at most once,
so first match is the entry). -/
def lookupCache (m : List (String × Bool)) (name : String) : Option Bool :=
  match m with
  | [] => none
  | (k, v) :: rest => if k = name then some v else lookupCache rest name

/-- `metricExists`: on a cache hit, answer from the cache with no backend
call; on a miss, issue a `Series` query for the name over
[`time.Time{}` = instant 0, `time.Now()` = `now`].  A backend error is
wrapped and returned without touching the cache; a success caches
`len(lset) > 0` and returns it. -/
def metricExists (series : Nat → String → Nat → Nat → Except String Nat) (now : Nat)
    (st : LinterState) (name : String) : Except String Bool × LinterState :=
  match lookupCache st.metrics name with
  | some b => (.ok b, st)
  | none =>
      match series st.calls.length name 0 now with
      | .error e =>
          (.error ("failed to get metric " ++ name ++ ": " ++ e),
           { st with calls := st.calls ++ [⟨name, 0, now⟩] })
      | .ok n =>
          (.ok (decide (0 < n)),
           { metrics := st.metrics ++ [(name, decide (0 < n))],
             calls := st.calls ++ [⟨name, 0, now⟩] })

/-! ## Validation driver (`run`)

Output written to stderr is modelled as a list of `Line`s: per-rule parse
diagnostics, per-metric check diagnostics, and missing-metric findings. -/

inductive Line where
  | parseError (err : String)
  | checkError (err : String)
  | finding (rule : String) (metric : String)
  deriving Repr, DecidableEq

/-- The inner loop of `run`: check each extracted metric in turn.  A
checker error is reported and the loop continues with the next metric; a
metric that is not found produces a finding. -/
def checkMetrics (series : Nat → String → Nat → Nat → Except String Nat) (now : Nat)
    (rule : String) : List String → LinterState → List Line × LinterState
  | [], st => ([], st)
  | m :: ms, st =>
      let r := metricExists series now st m
      let rest := checkMetrics series now rule ms r.2
      match r.1 with
      | .error e => (.checkError e :: rest.1, rest.2)
      | .ok found => (if found then rest.1 else .finding rule m :: rest.1, rest.2)

/-- The outer loop of `run`: for each rule, parse it and extract its
metric names (`getMetrics`); a parse error is reported and the loop
continues with the next rule.  `mapOrder` is the oracle for the order in
which Go's `for k := range metrics` hands back the key set. -/
def processRules (parse : String → Except String Expr)
    (series : Nat → String → Nat → Nat → Except String Nat) (now : Nat)
    (mapOrder : List String → List String) :
    List String → LinterState → List Line × LinterState
  | [], st => ([], st)
  | r :: rs, st =>
      match parse r with
      | .error e =>
          let rest := processRules parse series now mapOrder rs st
          (.parseError e :: rest.1, rest.2)
      | .ok expr =>
          let c := checkMetrics series now r (mapOrder (metricNames expr)) st
          let rest := processRules parse series now mapOrder rs c.2
          (c.1 ++ rest.1, rest.2)

/-- `getMetrics`: parse the rule (external parser) and return the set of
referenced metric names, in the order the map-iteration oracle yields it. -/
def getMetrics (parse : String → Except String Expr)
    (mapOrder : List String → List String) (rule : String) : Except String (List String) :=
  match parse rule with
  | .error e => .error e
  | .ok expr => .ok (mapOrder (metricNames expr))

/-- The whole configuration and environment of one run:
the `-url` flag, the external parser, the backend's rule listing and
series responses, the wall clock and Go's map iteration order. -/
structure RunEnv where
  urlArg : String
  parse : String → Except String Expr
  rulesResp : Except String (List RuleGroup)
  series : Nat → String → Nat → Nat → Except String Nat
  now : Nat
  mapOrder : List String → List String

/-- The characters before the first colon, when a colon is present. -/
def schemePrefix : List Char → Option (List Char)
  | [] => none
  | c :: cs => if c = ':' then some [] else (schemePrefix cs).map (fun p => c :: p)

/-- The scheme of a parsed URL: the prefix before the first colon
(`url.Parse` on an absolute URL such as "ftp://x" yields scheme "ftp";
a string with no colon parses as a relative URL with empty scheme). -/
def urlScheme (s : String) : String :=
  match schemePrefix s.data with
  | some p => String.mk p
  | none => ""

/-- The configuration precondition of `run`: the `-url` flag is present
and parses with scheme `http` or `https`. -/
def validConfig (urlArg : String) : Bool :=
  urlArg ≠ "" && (urlScheme urlArg = "http" || urlScheme urlArg = "https")

/-- `run`: validate the configuration, list the rules (aborting on
failure), then process every rule.  On success the result carries the
emitted diagnostic lines and the final linter state (cache and the log of
backend series calls). -/
def run (env : RunEnv) : Except String (List Line × LinterState) :=
  if env.urlArg = "" then .error "Missing -url parameter"
  else if urlScheme env.urlArg ≠ "http" ∧ urlScheme env.urlArg ≠ "https" then
    .error ("Invalid URL scheme: " ++ urlScheme env.urlArg)
  else
    match getRulesE env.rulesResp with
    | .error e => .error e
    | .ok rules =>
        .ok (processRules env.parse env.series env.now env.mapOrder rules initState)

/-- The process exit code of `main`: 2 when `run` returns an error,
0 otherwise. -/
def mainExit (env : RunEnv) : Nat :=
  match run env with
  | .error _ => 2
  | .ok _ => 0

/-! ## Spec-side readings and auxiliary notions used by the theorems -/

mutual
/-- Spec-side reading of the extractor: the positional names of ALL
instantaneous (vector) and range (matrix) selector nodes of the tree,
empty or not, in visit order.  This is what "the selectors occurring in
the expression" denotes, independently of the extractor's filtering. -/
def allSelectorNames : Expr → List String
  | .vectorSelector n => [n]
  | .matrixSelector n _ => [n]
  | .binaryExpr _ l r => allSelectorNames l ++ allSelectorNames r
  | .call _ args => allSelectorNamesList args
  | .aggregateExpr _ param body => allSelectorNamesList param ++ allSelectorNames body
  | .unaryExpr _ e => allSelectorNames e
  | .parenExpr e => allSelectorNames e
  | .numberLiteral _ => []
  | .stringLiteral _ => []

def allSelectorNamesList : ExprList → List String
  | .nil => []
  | .cons e es => allSelectorNames e ++ allSelectorNamesList es
end

/-- The names of the backend series calls issued so far, in issue order. -/
def callNames (st : LinterState) : List String := st.calls.map SeriesCall.name

/-- A backend whose series responses are determined by the metric name
alone (an unchanged backend: the same answer no matter when it is asked). -/
def constSeries (f : String → Except String Nat) : Nat → String → Nat → Nat → Except String Nat :=
  fun _ n _ _ => f n

/-- Every name that appears in the cache was the subject of a backend
series call (the cache is populated only by successful checks). -/
def cacheSub (st : LinterState) : Prop :=
  ∀ n, (lookupCache st.metrics n).isSome → n ∈ callNames st

/-- Per-name memoization invariant: the name was queried at most once,
and it is cached exactly when it was queried. -/
def goodName (n : String) (st : LinterState) : Prop :=
  (callNames st).count n ≤ 1 ∧ ((lookupCache st.metrics n).isSome ↔ n ∈ callNames st)

/-- The cache agrees with a name-determined backend `f`: every cached
verdict is the one `f` yields for that name. -/
def cacheOK (f : String → Except String Nat) (st : LinterState) : Prop :=
  ∀ n b, lookupCache st.metrics n = some b → ∃ k, f n = .ok k ∧ b = decide (0 < k)

/-- The stderr line(s) the inner loop emits for one metric of one rule,
against the name-determined backend `f`: a diagnostic when the check
fails, a finding when the metric is missing, nothing when it exists. -/
def lineFor (f : String → Except String Nat) (rule m : String) : Option Line :=
  match f m with
  | .error e => some (.checkError ("failed to get metric " ++ m ++ ": " ++ e))
  | .ok k => if 0 < k then none else some (.finding rule m)

/-- The block of stderr lines one rule contributes, against the
name-determined backend `f`. -/
def ruleBlock (parse : String → Except String Expr) (f : String → Except String Nat)
    (mapOrder : List String → List String) (r : String) : List Line :=
  match parse r with
  | .error e => [.parseError e]
  | .ok ex => (mapOrder (metricNames ex)).filterMap (lineFor f r)

/-- All metric names referenced by the (successfully parsed) rules, each
rule contributing its name set. -/
def referencedNames (parse : String → Except String Expr) (rules : List String) : List String :=
  rules.flatMap (fun r =>
    match parse r with
    | .ok ex => metricNames ex
    | .error _ => [])

/-- Is this line a missing-metric finding for metric `M`? -/
def isFindingFor (M : String) : Line → Bool
  | .finding _ m => m = M
  | _ => false

/-- Does rule `r` (under the given parser) reference metric `M`? -/
def referencesMetric (parse : String → Except String Expr) (M : String) (r : String) : Bool :=
  match parse r with
  | .ok ex => decide (M ∈ metricNames ex)
  | .error _ => false

/-! ## Concrete scenarios used to instantiate the theorems -/

/-- Two rules that together reference metric "a" twice and "b" once. -/
def parseW1 : String → Except String Expr := fun r =>
  if r = "q1" then .ok (.vectorSelector "a")
  else .ok (.binaryExpr "+" (.vectorSelector "a") (.vectorSelector "b"))

def groupsW1 : List RuleGroup := [⟨[.recording "q1", .alerting "q2"]⟩]

def envW1 : RunEnv :=
  ⟨"http://prom", parseW1, .ok groupsW1, fun _ _ _ _ => .ok 1, 5, id⟩

/-- The final linter state of a run of `envW1`. -/
def stW1 : LinterState :=
  ⟨[("a", true), ("b", true)], [⟨"a", 0, 5⟩, ⟨"b", 0, 5⟩]⟩

/-- A state whose cache already holds a verdict for "c". -/
def cachedW1 : LinterState := ⟨[("c", true)], []⟩

/-- A query expression referencing the same metric twice. -/
def exprW2 : Expr := .binaryExpr "+" (.vectorSelector "m") (.vectorSelector "m")

/-- A backend that fails on the first series call and succeeds afterwards. -/
def seriesW4 : Nat → String → Nat → Nat → Except String Nat :=
  fun idx _ _ _ => if idx = 0 then .error "boom" else .ok 1

/-- An environment whose single rule fails to parse and whose backend
always fails. -/
def envW5 : RunEnv :=
  ⟨"http://x",
   fun r => if r = "bad" then .error "oops" else .ok (.vectorSelector "up"),
   .ok [⟨[.recording "bad"]⟩], fun _ _ _ _ => .error "net", 0, id⟩

/-- A state with one cached metric and an empty call log. -/
def stW7 : LinterState := ⟨[("x", false)], []⟩

/-- A configuration with a non-http(s) backend address. -/
def envW8 : RunEnv :=
  ⟨"ftp://x", fun _ => .error "p", .ok [], fun _ _ _ _ => .ok 0, 0, id⟩

/-- A query expression referencing two distinct metrics. -/
def exprAB : Expr := .binaryExpr "+" (.vectorSelector "a") (.vectorSelector "b")

/-- One rule, two missing metrics, key-set iterated in insertion order. -/
def envOrd1 : RunEnv :=
  ⟨"http://h", fun _ => .ok exprAB, .ok [⟨[.recording "q"]⟩],
   constSeries (fun _ => .ok 0), 1, id⟩

/-- The same backend and rules, key-set iterated in the reverse order. -/
def envOrd2 : RunEnv :=
  ⟨"http://h", fun _ => .ok exprAB, .ok [⟨[.recording "q"]⟩],
   constSeries (fun _ => .ok 0), 1, List.reverse⟩

def stOrd1 : LinterState :=
  ⟨[("a", false), ("b", false)], [⟨"a", 0, 1⟩, ⟨"b", 0, 1⟩]⟩

def stOrd2 : LinterState :=
  ⟨[("b", false), ("a", false)], [⟨"b", 0, 1⟩, ⟨"a", 0, 1⟩]⟩

/-- Two rules both referencing missing metric "miss"; "ok" exists. -/
def parseW10 : String → Except String Expr := fun r =>
  if r = "q1" then .ok (.vectorSelector "miss")
  else .ok (.binaryExpr "/" (.vectorSelector "miss") (.vectorSelector "ok"))

def fW10 : String → Except String Nat := fun n =>
  if n = "ok" then .ok 3 else .ok 0

def groupsW10 : List RuleGroup := [⟨[.recording "q1", .alerting "q2"]⟩]

def envW10 : RunEnv :=
  ⟨"http://h", parseW10, .ok groupsW10, constSeries fW10, 2, id⟩

/-- The final linter state of a run of `envW10`. -/
def stW10 : LinterState :=
  ⟨[("miss", false), ("ok", true)], [⟨"miss", 0, 2⟩, ⟨"ok", 0, 2⟩]⟩

/-- Two rules referencing the same metric "a", with a backend whose
series calls always fail. -/
def envC1x : RunEnv :=
  ⟨"http://h", fun _ => .ok (.vectorSelector "a"),
   .ok [⟨[.recording "q1", .recording "q2"]⟩],
   fun _ _ _ _ => .error "net", 3, id⟩

/-- The final linter state of a run of `envC1x`: "a" was queried twice. -/
def stC1x : LinterState := ⟨[], [⟨"a", 0, 3⟩, ⟨"a", 0, 3⟩]⟩

/-- The findings of a run of `envW10`. -/
def linesW10 : List Line := [.finding "q1" "miss", .finding "q2" "miss"]

/-! ## Lemmas about the extractor -/

mutual
/-- The extractor's collected names are exactly the non-empty positional
selector names, in the same order. -/
theorem collect_eq_filter : ∀ e : Expr,
    collect e = (allSelectorNames e).filter (fun n => n != "")
  | .vectorSelector n => by
      by_cases h : n = "" <;> simp [collect, allSelectorNames, h]
  | .matrixSelector n d => by
      by_cases h : n = "" <;> simp [collect, allSelectorNames, h]
  | .binaryExpr op l r => by
      simp [collect, allSelectorNames, collect_eq_filter l, collect_eq_filter r]
  | .call fn args => by
      simp [collect, allSelectorNames, collectList_eq_filter args]
  | .aggregateExpr op param body => by
      simp [collect, allSelectorNames, collectList_eq_filter param,
        collect_eq_filter body]
  | .unaryExpr op e1 => by
      simp [collect, allSelectorNames, collect_eq_filter e1]
  | .parenExpr e1 => by
      simp [collect, allSelectorNames, collect_eq_filter e1]
  | .numberLiteral v => by simp [collect, allSelectorNames]
  | .stringLiteral s => by simp [collect, allSelectorNames]

theorem collectList_eq_filter : ∀ es : ExprList,
    collectList es = (allSelectorNamesList es).filter (fun n => n != "")
  | .nil => by simp [collectList, allSelectorNamesList]
  | .cons e es => by
      simp [collectList, allSelectorNamesList, collect_eq_filter e,
        collectList_eq_filter es]
end

theorem mem_collect {M : String} {e : Expr} :
    M ∈ collect e ↔ M ∈ allSelectorNames e ∧ M ≠ "" := by
  rw [collect_eq_filter, List.mem_filter]
  simp

theorem mem_metricNames {M : String} {e : Expr} :
    M ∈ metricNames e ↔ M ∈ allSelectorNames e ∧ M ≠ "" := by
  rw [metricNames, List.mem_dedup, mem_collect]

theorem nodup_metricNames (e : Expr) : (metricNames e).Nodup :=
  List.nodup_dedup _

/-! ## Lemmas about the existence checker -/

theorem lookupCache_append (m1 m2 : List (String × Bool)) (x : String) :
    lookupCache (m1 ++ m2) x =
      match lookupCache m1 x with
      | some b => some b
      | none => lookupCache m2 x := by
  induction m1 with
  | nil => simp [lookupCache]
  | cons p rest ih =>
      obtain ⟨k, v⟩ := p
      by_cases h : k = x
      · simp [lookupCache, h]
      · simp [lookupCache, h, ih]

theorem metricExists_hit {series : Nat → String → Nat → Nat → Except String Nat}
    {now : Nat} {st : LinterState} {n : String} {b : Bool}
    (h : lookupCache st.metrics n = some b) :
    metricExists series now st n = (.ok b, st) := by
  simp [metricExists, h]

theorem metricExists_miss_error {series : Nat → String → Nat → Nat → Except String Nat}
    {now : Nat} {st : LinterState} {n e : String}
    (h : lookupCache st.metrics n = none)
    (he : series st.calls.length n 0 now = .error e) :
    metricExists series now st n =
      (.error ("failed to get metric " ++ n ++ ": " ++ e),
       { st with calls := st.calls ++ [⟨n, 0, now⟩] }) := by
  simp [metricExists, h, he]

theorem metricExists_miss_ok {series : Nat → String → Nat → Nat → Except String Nat}
    {now : Nat} {st : LinterState} {n : String} {k : Nat}
    (h : lookupCache st.metrics n = none)
    (hk : series st.calls.length n 0 now = .ok k) :
    metricExists series now st n =
      (.ok (decide (0 < k)),
       { metrics := st.metrics ++ [(n, decide (0 < k))],
         calls := st.calls ++ [⟨n, 0, now⟩] }) := by
  simp [metricExists, h, hk]

theorem callNames_calls_append {st : LinterState} {c : SeriesCall} :
    callNames { st with calls := st.calls ++ [c] } = callNames st ++ [c.name] := by
  simp [callNames]

theorem metricExists_cacheSub {series : Nat → String → Nat → Nat → Except String Nat}
    {now : Nat} {st : LinterState} {m : String} (h : cacheSub st) :
    cacheSub (metricExists series now st m).2 := by
  cases hc : lookupCache st.metrics m with
  | some b => rw [metricExists_hit hc]; exact h
  | none =>
      cases hs : series st.calls.length m 0 now with
      | error e =>
          rw [metricExists_miss_error hc hs]
          intro n hn
          have := h n hn
          simp only [callNames, List.map_append] at *
          exact List.mem_append_left _ this
      | ok k =>
          rw [metricExists_miss_ok hc hs]
          intro n hn
          simp only [lookupCache_append] at hn
          cases hl : lookupCache st.metrics n with
          | some b =>
              have := h n (by simp [hl])
              simp only [callNames, List.map_append]
              exact List.mem_append_left _ this
          | none =>
              rw [hl] at hn
              simp only [lookupCache] at hn
              by_cases hmn : m = n
              · subst hmn
                simp [callNames]
              · simp [hmn] at hn

theorem metricExists_mem_callNames {series : Nat → String → Nat → Nat → Except String Nat}
    {now : Nat} {st : LinterState} {m : String} (h : cacheSub st) (x : String) :
    x ∈ callNames (metricExists series now st m).2 ↔ x ∈ callNames st ∨ x = m := by
  cases hc : lookupCache st.metrics m with
  | some b =>
      rw [metricExists_hit hc]
      constructor
      · exact Or.inl
      · rintro (hx | rfl)
        · exact hx
        · exact h x (by simp [hc])
  | none =>
      cases hs : series st.calls.length m 0 now with
      | error e =>
          rw [metricExists_miss_error hc hs, callNames_calls_append]
          simp
      | ok k =>
          rw [metricExists_miss_ok hc hs]
          simp [callNames]

theorem lookupCache_snoc_ne {mcache : List (String × Bool)} {m n : String} {b : Bool}
    (h : m ≠ n) : lookupCache (mcache ++ [(m, b)]) n = lookupCache mcache n := by
  rw [lookupCache_append]
  cases lookupCache mcache n <;> simp [lookupCache, h]

theorem lookupCache_snoc_self {mcache : List (String × Bool)} {m : String} {b : Bool}
    (h : lookupCache mcache m = none) : lookupCache (mcache ++ [(m, b)]) m = some b := by
  rw [lookupCache_append, h]
  simp [lookupCache]

theorem metricExists_goodName {series : Nat → String → Nat → Nat → Except String Nat}
    {now : Nat} {st : LinterState} {m n : String}
    (hn : ∀ idx s t, ∃ k, series idx n s t = Except.ok k)
    (hg : goodName n st) : goodName n (metricExists series now st m).2 := by
  obtain ⟨hcount, hiff⟩ := hg
  simp only [goodName, callNames] at hcount hiff ⊢
  cases hc : lookupCache st.metrics m with
  | some b => rw [metricExists_hit hc]; exact ⟨hcount, hiff⟩
  | none =>
      by_cases hmn : m = n
      · subst hmn
        obtain ⟨k, hk⟩ := hn st.calls.length 0 now
        rw [metricExists_miss_ok hc hk]
        have hnotmem : m ∉ st.calls.map SeriesCall.name := by
          intro hmem
          have h2 := hiff.mpr hmem
          rw [hc] at h2
          simp at h2
        have hzero : (st.calls.map SeriesCall.name).count m = 0 :=
          List.count_eq_zero.mpr hnotmem
        refine ⟨?_, ?_⟩
        · simp [List.count_append, hzero]
        · rw [lookupCache_snoc_self hc]
          simp
      · have hcnt1 : ([m] : List String).count n = 0 := by
          rw [List.count_eq_zero]
          intro h
          exact hmn (List.mem_singleton.mp h).symm
        have hmem2 : ∀ c : List SeriesCall,
            (n ∈ (c ++ [(⟨m, 0, now⟩ : SeriesCall)]).map SeriesCall.name ↔
              n ∈ c.map SeriesCall.name) := by
          intro c
          simp only [List.map_append, List.map_cons, List.map_nil, List.mem_append]
          constructor
          · rintro (h | h)
            · exact h
            · exact absurd (List.mem_singleton.mp h).symm hmn
          · exact Or.inl
        cases hs : series st.calls.length m 0 now with
        | error e =>
            rw [metricExists_miss_error hc hs]
            refine ⟨?_, ?_⟩
            · simp only [List.map_append, List.map_cons, List.map_nil, List.count_append]
              rw [show (List.count n [m]) = 0 from hcnt1]
              omega
            · exact hiff.trans (hmem2 st.calls).symm
        | ok k =>
            rw [metricExists_miss_ok hc hs]
            refine ⟨?_, ?_⟩
            · simp only [List.map_append, List.map_cons, List.map_nil, List.count_append]
              rw [show (List.count n [m]) = 0 from hcnt1]
              omega
            · rw [lookupCache_snoc_ne hmn]
              exact hiff.trans (hmem2 st.calls).symm

/-! ## Lemmas about the driver loops -/

theorem checkMetrics_snd_cons {series : Nat → String → Nat → Nat → Except String Nat}
    {now : Nat} {rule m : String} {ms : List String} {st : LinterState} :
    (checkMetrics series now rule (m :: ms) st).2 =
      (checkMetrics series now rule ms (metricExists series now st m).2).2 := by
  simp only [checkMetrics]
  cases (metricExists series now st m).1 <;> rfl

theorem checkMetrics_state (series : Nat → String → Nat → Nat → Except String Nat)
    (now : Nat) (rule : String) :
    ∀ (ms : List String) (st : LinterState), cacheSub st →
      cacheSub (checkMetrics series now rule ms st).2
      ∧ (∀ x, x ∈ callNames (checkMetrics series now rule ms st).2 ↔
          x ∈ callNames st ∨ x ∈ ms)
      ∧ (∀ n, (∀ idx s t, ∃ k, series idx n s t = Except.ok k) →
          goodName n st → goodName n (checkMetrics series now rule ms st).2) := by
  intro ms
  induction ms with
  | nil =>
      intro st hsub
      refine ⟨hsub, ?_, ?_⟩
      · intro x; simp [checkMetrics]
      · intro n _ hg; exact hg
  | cons m ms ih =>
      intro st hsub
      have hsub1 : cacheSub (metricExists series now st m).2 := metricExists_cacheSub hsub
      obtain ⟨ihsub, ihmem, ihgood⟩ := ih (metricExists series now st m).2 hsub1
      rw [checkMetrics_snd_cons]
      refine ⟨ihsub, ?_, ?_⟩
      · intro x
        rw [ihmem x, metricExists_mem_callNames hsub x, List.mem_cons, or_assoc]
      · intro n hn hg
        exact ihgood n hn (metricExists_goodName hn hg)

theorem processRules_snd_cons_err {parse : String → Except String Expr}
    {series : Nat → String → Nat → Nat → Except String Nat} {now : Nat}
    {p : List String → List String} {r e : String} {rs : List String} {st : LinterState}
    (hp : parse r = .error e) :
    (processRules parse series now p (r :: rs) st).2 =
      (processRules parse series now p rs st).2 := by
  simp only [processRules, hp]

theorem processRules_snd_cons_ok {parse : String → Except String Expr}
    {series : Nat → String → Nat → Nat → Except String Nat} {now : Nat}
    {p : List String → List String} {r : String} {ex : Expr} {rs : List String}
    {st : LinterState} (hp : parse r = .ok ex) :
    (processRules parse series now p (r :: rs) st).2 =
      (processRules parse series now p rs
        (checkMetrics series now r (p (metricNames ex)) st).2).2 := by
  simp only [processRules, hp]

theorem processRules_fst_cons_err {parse : String → Except String Expr}
    {series : Nat → String → Nat → Nat → Except String Nat} {now : Nat}
    {p : List String → List String} {r e : String} {rs : List String} {st : LinterState}
    (hp : parse r = .error e) :
    (processRules parse series now p (r :: rs) st).1 =
      .parseError e :: (processRules parse series now p rs st).1 := by
  simp only [processRules, hp]

theorem processRules_fst_cons_ok {parse : String → Except String Expr}
    {series : Nat → String → Nat → Nat → Except String Nat} {now : Nat}
    {p : List String → List String} {r : String} {ex : Expr} {rs : List String}
    {st : LinterState} (hp : parse r = .ok ex) :
    (processRules parse series now p (r :: rs) st).1 =
      (checkMetrics series now r (p (metricNames ex)) st).1 ++
        (processRules parse series now p rs
          (checkMetrics series now r (p (metricNames ex)) st).2).1 := by
  simp only [processRules, hp]

theorem processRules_state (parse : String → Except String Expr)
    (series : Nat → String → Nat → Nat → Except String Nat) (now : Nat)
    (p : List String → List String) (hperm : ∀ l, (p l).Perm l) :
    ∀ (rules : List String) (st : LinterState), cacheSub st →
      cacheSub (processRules parse series now p rules st).2
      ∧ (∀ x, x ∈ callNames (processRules parse series now p rules st).2 ↔
          x ∈ callNames st ∨ x ∈ referencedNames parse rules)
      ∧ (∀ n, (∀ idx s t, ∃ k, series idx n s t = Except.ok k) →
          goodName n st → goodName n (processRules parse series now p rules st).2) := by
  intro rules
  induction rules with
  | nil =>
      intro st hsub
      refine ⟨hsub, ?_, ?_⟩
      · intro x; simp [processRules, referencedNames]
      · intro n _ hg; exact hg
  | cons r rs ih =>
      intro st hsub
      cases hp : parse r with
      | error e =>
          obtain ⟨ihsub, ihmem, ihgood⟩ := ih st hsub
          rw [processRules_snd_cons_err hp]
          refine ⟨ihsub, ?_, ihgood⟩
          intro x
          rw [ihmem x]
          simp [referencedNames, hp]
      | ok ex =>
          obtain ⟨csub, cmem, cgood⟩ :=
            checkMetrics_state series now r (p (metricNames ex)) st hsub
          obtain ⟨ihsub, ihmem, ihgood⟩ :=
            ih (checkMetrics series now r (p (metricNames ex)) st).2 csub
          rw [processRules_snd_cons_ok hp]
          refine ⟨ihsub, ?_, ?_⟩
          · intro x
            rw [ihmem x, cmem x]
            have hx : x ∈ p (metricNames ex) ↔ x ∈ metricNames ex :=
              (hperm (metricNames ex)).mem_iff
            simp [referencedNames, hp, hx, or_assoc]
          · intro n hn hg
            exact ihgood n hn (cgood n hn hg)

/-! ## Lemmas about runs against a name-determined backend -/

theorem checkMetrics_const_lines (f : String → Except String Nat) (now : Nat) (rule : String) :
    ∀ (ms : List String) (st : LinterState), cacheOK f st →
      (checkMetrics (constSeries f) now rule ms st).1 = ms.filterMap (lineFor f rule)
      ∧ cacheOK f (checkMetrics (constSeries f) now rule ms st).2 := by
  intro ms
  induction ms with
  | nil => intro st hok; exact ⟨rfl, hok⟩
  | cons m ms ih =>
      intro st hok
      cases hc : lookupCache st.metrics m with
      | some b =>
          obtain ⟨k, hfm, hb⟩ := hok m b hc
          have hme : metricExists (constSeries f) now st m = (.ok b, st) :=
            metricExists_hit hc
          obtain ⟨ihl, ihok⟩ := ih st hok
          have hline : lineFor f rule m = if b then none else some (.finding rule m) := by
            rw [lineFor, hfm, hb]
            by_cases h0 : 0 < k <;> simp [h0]
          refine ⟨?_, ?_⟩
          · rw [List.filterMap_cons, hline]
            simp only [checkMetrics, hme]
            cases b <;> simp [ihl]
          · simp only [checkMetrics, hme]
            exact ihok
      | none =>
          cases hfm : f m with
          | error e =>
              have hme : metricExists (constSeries f) now st m =
                  (.error ("failed to get metric " ++ m ++ ": " ++ e),
                   { st with calls := st.calls ++ [⟨m, 0, now⟩] }) :=
                metricExists_miss_error hc hfm
              obtain ⟨ihl, ihok⟩ := ih { st with calls := st.calls ++ [⟨m, 0, now⟩] } hok
              refine ⟨?_, ?_⟩
              · rw [List.filterMap_cons]
                have hline : lineFor f rule m =
                    some (.checkError ("failed to get metric " ++ m ++ ": " ++ e)) := by
                  rw [lineFor, hfm]
                rw [hline]
                simp only [checkMetrics, hme]
                simp [ihl]
              · simp only [checkMetrics, hme]
                exact ihok
          | ok k =>
              have hme : metricExists (constSeries f) now st m =
                  (.ok (decide (0 < k)),
                   { metrics := st.metrics ++ [(m, decide (0 < k))],
                     calls := st.calls ++ [⟨m, 0, now⟩] }) :=
                metricExists_miss_ok hc hfm
              have hok1 : cacheOK f
                  { metrics := st.metrics ++ [(m, decide (0 < k))],
                    calls := st.calls ++ [⟨m, 0, now⟩] } := by
                intro n b hn
                by_cases hmn : m = n
                · subst hmn
                  rw [lookupCache_snoc_self hc] at hn
                  injection hn with hb
                  exact ⟨k, hfm, hb.symm⟩
                · rw [lookupCache_snoc_ne hmn] at hn
                  exact hok n b hn
              obtain ⟨ihl, ihok⟩ := ih _ hok1
              have hline : lineFor f rule m =
                  if 0 < k then none else some (.finding rule m) := by
                rw [lineFor, hfm]
              refine ⟨?_, ?_⟩
              · rw [List.filterMap_cons, hline]
                simp only [checkMetrics, hme]
                by_cases h0 : 0 < k <;> simp [h0] at ihl ⊢ <;> exact ihl
              · simp only [checkMetrics, hme]
                exact ihok

theorem processRules_const_lines (parse : String → Except String Expr)
    (f : String → Except String Nat) (now : Nat) (p : List String → List String) :
    ∀ (rules : List String) (st : LinterState), cacheOK f st →
      (processRules parse (constSeries f) now p rules st).1 =
        rules.flatMap (ruleBlock parse f p)
      ∧ cacheOK f (processRules parse (constSeries f) now p rules st).2 := by
  intro rules
  induction rules with
  | nil => intro st hok; exact ⟨rfl, hok⟩
  | cons r rs ih =>
      intro st hok
      cases hp : parse r with
      | error e =>
          obtain ⟨ihl, ihok⟩ := ih st hok
          rw [processRules_fst_cons_err hp, processRules_snd_cons_err hp]
          refine ⟨?_, ihok⟩
          rw [List.flatMap_cons, ihl]
          simp [ruleBlock, hp]
      | ok ex =>
          obtain ⟨cl, cok⟩ :=
            checkMetrics_const_lines f now r (p (metricNames ex)) st hok
          obtain ⟨ihl, ihok⟩ :=
            ih (checkMetrics (constSeries f) now r (p (metricNames ex)) st).2 cok
          rw [processRules_fst_cons_ok hp, processRules_snd_cons_ok hp]
          refine ⟨?_, ihok⟩
          rw [List.flatMap_cons, ihl, cl]
          simp [ruleBlock, hp]

/-! ## Lemmas about `run` -/

theorem run_ok (env : RunEnv) (groups : List RuleGroup)
    (h1 : env.urlArg ≠ "")
    (h2 : urlScheme env.urlArg = "http" ∨ urlScheme env.urlArg = "https")
    (h3 : env.rulesResp = .ok groups) :
    run env = .ok (processRules env.parse env.series env.now env.mapOrder
      (getRules groups) initState) := by
  rw [run, if_neg h1, if_neg (by tauto :
    ¬(urlScheme env.urlArg ≠ "http" ∧ urlScheme env.urlArg ≠ "https")), h3]
  rfl

theorem run_error_iff (env : RunEnv) :
    (∃ e, run env = .error e) ↔
      (env.urlArg = ""
        ∨ (urlScheme env.urlArg ≠ "http" ∧ urlScheme env.urlArg ≠ "https")
        ∨ ∃ e, env.rulesResp = .error e) := by
  rw [run]
  by_cases h1 : env.urlArg = ""
  · simp [h1]
  · rw [if_neg h1]
    by_cases h2 : urlScheme env.urlArg ≠ "http" ∧ urlScheme env.urlArg ≠ "https"
    · simp [h1, h2]
    · rw [if_neg h2]
      cases hr : env.rulesResp with
      | error e => simp [getRulesE, h1, h2, hr]
      | ok groups => simp [getRulesE, h1, h2, hr]

theorem run_ok_inv (env : RunEnv) (out : List Line × LinterState)
    (h : run env = .ok out) :
    env.urlArg ≠ ""
    ∧ (urlScheme env.urlArg = "http" ∨ urlScheme env.urlArg = "https")
    ∧ ∃ groups, env.rulesResp = .ok groups
        ∧ out = processRules env.parse env.series env.now env.mapOrder
            (getRules groups) initState := by
  by_cases hu : env.urlArg = ""
  · rw [run, if_pos hu] at h
    cases h
  · by_cases hs : urlScheme env.urlArg ≠ "http" ∧ urlScheme env.urlArg ≠ "https"
    · rw [run, if_neg hu, if_pos hs] at h
      cases h
    · cases hresp : env.rulesResp with
      | error e =>
          rw [run, if_neg hu, if_neg hs, hresp] at h
          exact absurd h (by simp [getRulesE])
      | ok groups =>
          refine ⟨hu, by tauto, groups, rfl, ?_⟩
          rw [run_ok env groups hu (by tauto) hresp] at h
          injection h with h3
          exact h3.symm

theorem cacheSub_init : cacheSub initState := by
  intro n h
  cases h

theorem cacheOK_init (f : String → Except String Nat) : cacheOK f initState := by
  intro n b h
  cases h

theorem goodName_init (n : String) : goodName n initState := by
  refine ⟨?_, ?_⟩
  · simp [callNames, initState]
  · simp [callNames, initState, lookupCache]

/-! ## Lemmas counting findings per metric -/

theorem filter_finding_block_notmem (f : String → Except String Nat) (rule M : String) :
    ∀ ms : List String, M ∉ ms →
      (ms.filterMap (lineFor f rule)).filter (isFindingFor M) = [] := by
  intro ms
  induction ms with
  | nil => intro _; rfl
  | cons m ms ih =>
      intro h
      have hm : m ≠ M := fun hh => h (hh ▸ List.mem_cons_self m ms)
      have hms : M ∉ ms := fun hh => h (List.mem_cons_of_mem m hh)
      rw [List.filterMap_cons]
      cases hl : lineFor f rule m with
      | none => exact ih hms
      | some l =>
          have hfl : isFindingFor M l = false := by
            simp only [lineFor] at hl
            cases hfm : f m with
            | error e =>
                simp only [hfm] at hl
                injection hl with hl2
                rw [← hl2]
                rfl
            | ok k =>
                simp only [hfm] at hl
                by_cases h0 : 0 < k
                · rw [if_pos h0] at hl
                  cases hl
                · rw [if_neg h0] at hl
                  injection hl with hl2
                  rw [← hl2]
                  simp [isFindingFor, hm]
          rw [List.filter_cons, hfl]
          exact ih hms

theorem filter_finding_block (f : String → Except String Nat) (rule M : String)
    (hM : f M = .ok 0) :
    ∀ ms : List String, ms.Nodup →
      (ms.filterMap (lineFor f rule)).filter (isFindingFor M) =
        if M ∈ ms then [.finding rule M] else [] := by
  intro ms
  induction ms with
  | nil => intro _; rfl
  | cons m ms ih =>
      intro hnd
      obtain ⟨hnotin, hnd'⟩ := List.nodup_cons.mp hnd
      rw [List.filterMap_cons]
      by_cases hm : m = M
      · subst hm
        have hl : lineFor f rule m = some (.finding rule m) := by
          rw [lineFor, hM]
          simp
        rw [hl, List.filter_cons]
        have : isFindingFor m (.finding rule m) = true := by simp [isFindingFor]
        rw [this, filter_finding_block_notmem f rule m ms hnotin]
        simp
      · have hMms : (M ∈ m :: ms) ↔ M ∈ ms := by
          rw [List.mem_cons]
          constructor
          · rintro (h | h)
            · exact absurd h.symm hm
            · exact h
          · exact Or.inr
        simp only [hMms]
        cases hl : lineFor f rule m with
        | none => exact ih hnd'
        | some l =>
            have hfl : isFindingFor M l = false := by
              simp only [lineFor] at hl
              cases hfm : f m with
              | error e =>
                  simp only [hfm] at hl
                  injection hl with hl2
                  rw [← hl2]
                  rfl
              | ok k =>
                  simp only [hfm] at hl
                  by_cases h0 : 0 < k
                  · rw [if_pos h0] at hl
                    cases hl
                  · rw [if_neg h0] at hl
                    injection hl with hl2
                    rw [← hl2]
                    simp [isFindingFor, hm]
            rw [List.filter_cons, hfl]
            exact ih hnd'

theorem findings_count (parse : String → Except String Expr)
    (f : String → Except String Nat) (p : List String → List String) (M : String)
    (hperm : ∀ l, (p l).Perm l) (hM : f M = .ok 0) :
    ∀ rules : List String,
      ((rules.flatMap (ruleBlock parse f p)).filter (isFindingFor M)).length =
        (rules.filter (referencesMetric parse M)).length := by
  intro rules
  induction rules with
  | nil => rfl
  | cons r rs ih =>
      rw [List.flatMap_cons, List.filter_append, List.length_append, ih,
        List.filter_cons]
      cases hp : parse r with
      | error e =>
          have h1 : (ruleBlock parse f p r).filter (isFindingFor M) = [] := by
            simp [ruleBlock, hp, isFindingFor]
          have h2 : referencesMetric parse M r = false := by
            simp [referencesMetric, hp]
          rw [h1, h2]
          simp
      | ok ex =>
          have hnd : (p (metricNames ex)).Nodup :=
            ((hperm (metricNames ex)).nodup_iff).mpr (nodup_metricNames ex)
          have h1 : (ruleBlock parse f p r).filter (isFindingFor M) =
              if M ∈ p (metricNames ex) then [.finding r M] else [] := by
            rw [ruleBlock, hp]
            exact filter_finding_block f r M hM (p (metricNames ex)) hnd
          have hmemiff : (M ∈ p (metricNames ex)) ↔ M ∈ metricNames ex :=
            (hperm (metricNames ex)).mem_iff
          have h2 : referencesMetric parse M r = decide (M ∈ metricNames ex) := by
            simp [referencesMetric, hp]
          rw [h1, h2]
          by_cases hmem : M ∈ metricNames ex
          · rw [if_pos (hmemiff.mpr hmem)]
            simp [hmem]
            omega
          · rw [if_neg (fun hh => hmem (hmemiff.mp hh))]
            simp [hmem]

theorem finding_source {parse : String → Except String Expr}
    {f : String → Except String Nat} {p : List String → List String}
    {r m : String} {rules : List String}
    (h : Line.finding r m ∈ rules.flatMap (ruleBlock parse f p)) :
    ∃ ex, parse r = .ok ex ∧ m ∈ p (metricNames ex) ∧ f m = .ok 0 := by
  rw [List.mem_flatMap] at h
  obtain ⟨r', _, hmem⟩ := h
  cases hp : parse r' with
  | error e =>
      rw [ruleBlock, hp] at hmem
      simp at hmem
  | ok ex =>
      rw [ruleBlock, hp] at hmem
      rw [List.mem_filterMap] at hmem
      obtain ⟨m', hm', hline⟩ := hmem
      simp only [lineFor] at hline
      cases hfm : f m' with
      | error e =>
          simp only [hfm] at hline
          injection hline with h2
          cases h2
      | ok k =>
          simp only [hfm] at hline
          by_cases h0 : 0 < k
          · rw [if_pos h0] at hline
            cases hline
          · rw [if_neg h0] at hline
            injection hline with h2
            injection h2 with hr2 hm2
            subst hr2
            subst hm2
            have hk : k = 0 := by omega
            subst hk
            exact ⟨ex, hp, hm', hfm⟩

theorem ruleBlock_perm (parse : String → Except String Expr)
    (f : String → Except String Nat) {p1 p2 : List String → List String}
    (h1 : ∀ l, (p1 l).Perm l) (h2 : ∀ l, (p2 l).Perm l) (r : String) :
    (ruleBlock parse f p1 r).Perm (ruleBlock parse f p2 r) := by
  cases hp : parse r with
  | error e => simp [ruleBlock, hp]
  | ok ex =>
      simp only [ruleBlock, hp]
      exact ((h1 (metricNames ex)).trans (h2 (metricNames ex)).symm).filterMap _

/-! ## Lemmas about the rule source adapter -/

theorem getRules_inner (rules : List Rule) :
    ∀ qs : List String,
      rules.foldl
        (fun qs r =>
          match r with
          | Rule.recording q => qs ++ [q]
          | Rule.alerting q => qs ++ [q]
          | Rule.other => qs)
        qs = qs ++ rules.filterMap ruleQuery := by
  induction rules with
  | nil => intro qs; simp
  | cons r rs ih =>
      intro qs
      cases r <;>
        simp [List.foldl_cons, ih, List.filterMap_cons, ruleQuery, List.append_assoc]

theorem getRules_aux (groups : List RuleGroup) :
    ∀ init : List String,
      groups.foldl
        (fun qs g =>
          g.rules.foldl
            (fun qs r =>
              match r with
              | Rule.recording q => qs ++ [q]
              | Rule.alerting q => qs ++ [q]
              | Rule.other => qs)
            qs)
        init = init ++ groups.flatMap (fun g => g.rules.filterMap ruleQuery) := by
  induction groups with
  | nil => intro init; simp
  | cons g gs ih =>
      intro init
      rw [List.foldl_cons, getRules_inner g.rules init, ih, List.flatMap_cons,
        List.append_assoc]

theorem getRules_eq_spec (groups : List RuleGroup) :
    getRules groups = specRuleQueries groups := by
  rw [getRules, specRuleQueries]
  simpa using getRules_aux groups []

/-! ## The claims -/

/-- C1 (counterexample): in a validation run whose backend series calls
fail, a metric name referenced by two rules is queried twice — the
failed first check is not cached, so the second reference issues a new
backend call.  Hence "at most one backend call per distinct name during
a run" does not hold unconditionally. -/
theorem one_call_per_name_fails_on_backend_errors :
    run envC1x =
      .ok ([.checkError ("failed to get metric " ++ "a" ++ ": " ++ "net"),
            .checkError ("failed to get metric " ++ "a" ++ ": " ++ "net")], stC1x)
    ∧ (callNames stC1x).count "a" = 2 := by decide

/-- C1 (amended): during a validation run against a backend whose series
calls succeed, at most one backend series-existence call is issued per
distinct metric name — the call log is duplicate-free and its name set is
exactly the set of metric names referenced by the rules — no matter how
many rules reference a name; and once a name is resolved in the cache, a
further `metricExists` call returns the cached verdict with no state
change, hence no new backend call.  (With backend failures, a failed
check is retried on a later reference, as claim C4 states.) -/
theorem memoized_single_backend_call
    (env : RunEnv) (groups : List RuleGroup) (lines : List Line) (st : LinterState)
    (st0 : LinterState) (n0 : String) (b0 : Bool)
    (hok : ∀ idx n s t, ∃ k, env.series idx n s t = Except.ok k)
    (hperm : ∀ l, (env.mapOrder l).Perm l)
    (hresp : env.rulesResp = .ok groups)
    (hrun : run env = .ok (lines, st))
    (hhit : lookupCache st0.metrics n0 = some b0) :
    (callNames st).Nodup
    ∧ (callNames st).toFinset =
        (referencedNames env.parse (getRules groups)).toFinset
    ∧ metricExists env.series env.now st0 n0 = (.ok b0, st0) := by
  obtain ⟨hu, hsch, groups', hresp', hout⟩ := run_ok_inv env (lines, st) hrun
  rw [hresp] at hresp'
  injection hresp' with hg
  subst hg
  have hst : st = (processRules env.parse env.series env.now env.mapOrder
      (getRules groups) initState).2 := congrArg Prod.snd hout
  obtain ⟨_, hmem, hgood⟩ :=
    processRules_state env.parse env.series env.now env.mapOrder hperm
      (getRules groups) initState cacheSub_init
  refine ⟨?_, ?_, metricExists_hit hhit⟩
  · rw [hst, List.nodup_iff_count_le_one]
    intro a
    exact (hgood a (fun idx s t => hok idx a s t) (goodName_init a)).1
  · rw [hst]
    ext x
    simp only [List.mem_toFinset]
    rw [hmem x]
    simp [callNames, initState]

/-- C1 witness: two rules referencing "a" twice and "b" once issue one
backend call each for "a" and "b", and a cached name answers without a
backend call. -/
theorem memoized_single_backend_call_witness :
    (callNames stW1).Nodup
    ∧ (callNames stW1).toFinset =
        (referencedNames envW1.parse (getRules groupsW1)).toFinset
    ∧ metricExists envW1.series envW1.now cachedW1 "c" = (.ok true, cachedW1) :=
  memoized_single_backend_call envW1 groupsW1 [] stW1 cachedW1 "c" true
    (fun _ _ _ _ => ⟨1, rfl⟩) (fun l => List.Perm.refl l) rfl (by decide) (by decide)

/-- C2: a query expression whose tree contains (any positive number of)
selectors with the same non-empty positional name `M` yields, through
`getMetrics`, a list in which `M` occurs exactly once: references within
one query collapse to one (set semantics). -/
theorem extracted_name_counted_once
    (parse : String → Except String Expr) (mapOrder : List String → List String)
    (rule M : String) (e : Expr) (ms : List String)
    (hperm : ∀ l, (mapOrder l).Perm l)
    (hparse : parse rule = .ok e)
    (hM : M ∈ allSelectorNames e) (hMne : M ≠ "")
    (hms : getMetrics parse mapOrder rule = .ok ms) :
    ms.count M = 1 := by
  rw [getMetrics, hparse] at hms
  injection hms with hms2
  subst hms2
  rw [(hperm (metricNames e)).count_eq M, metricNames, List.count_dedup,
    if_pos (mem_collect.mpr ⟨hM, hMne⟩)]

/-- C2 witness: a query referencing "m" twice extracts "m" once. -/
theorem extracted_name_counted_once_witness :
    List.count "m" ["m"] = 1 :=
  extracted_name_counted_once (fun _ => .ok exprW2) id "q" "m" exprW2 ["m"]
    (fun l => List.Perm.refl l) rfl (by decide) (by decide) (by decide)

/-- C3: the extractor collects exactly the non-empty positional names of
vector (instantaneous) and matrix (range) selector nodes found by the
exhaustive traversal: the collected list is the full selector-name list
filtered to non-empty names, and a name is extracted iff it is the
non-empty positional name of some selector — selectors named only via a
label matcher (empty positional name) and all other node kinds contribute
nothing. -/
theorem extraction_exactly_selector_names (e : Expr) (M : String) :
    collect e = (allSelectorNames e).filter (fun n => n != "")
    ∧ (M ∈ metricNames e ↔ M ∈ allSelectorNames e ∧ M ≠ "") :=
  ⟨collect_eq_filter e, mem_metricNames⟩

/-- C4: a failed backend existence check returns the (wrapped) error to
the caller and writes no cache entry — the cache is unchanged, though the
failed call was issued; a later call for the same name performs a real
backend check (the call log grows again) and, on success, caches the
verdict. -/
theorem failed_check_not_cached
    (series : Nat → String → Nat → Nat → Except String Nat) (now : Nat)
    (st : LinterState) (name e : String) (k : Nat)
    (hmiss : lookupCache st.metrics name = none)
    (herr : series st.calls.length name 0 now = .error e)
    (hok2 : series (st.calls.length + 1) name 0 now = .ok k) :
    (metricExists series now st name).1 =
      .error ("failed to get metric " ++ name ++ ": " ++ e)
    ∧ (metricExists series now st name).2.metrics = st.metrics
    ∧ (metricExists series now st name).2.calls = st.calls ++ [⟨name, 0, now⟩]
    ∧ metricExists series now (metricExists series now st name).2 name =
        (.ok (decide (0 < k)),
         { metrics := st.metrics ++ [(name, decide (0 < k))],
           calls := st.calls ++ [⟨name, 0, now⟩, ⟨name, 0, now⟩] }) := by
  have h1 := metricExists_miss_error hmiss herr
  refine ⟨by rw [h1], by rw [h1], by rw [h1], ?_⟩
  rw [h1]
  have hs1 : ({ st with calls := st.calls ++ [⟨name, 0, now⟩] } :
      LinterState).calls.length = st.calls.length + 1 := by
    simp
  have h2 := metricExists_miss_ok
    (show lookupCache ({ st with calls := st.calls ++ [⟨name, 0, now⟩] } :
      LinterState).metrics name = none from hmiss)
    (by rw [hs1]; exact hok2)
  rw [h2]
  simp

/-- C4 witness: a transiently failing backend leaves the cache empty on
the failed call and populates it on the retry. -/
theorem failed_check_not_cached_witness :
    (metricExists seriesW4 7 initState "a").1 =
      .error ("failed to get metric " ++ "a" ++ ": " ++ "boom")
    ∧ (metricExists seriesW4 7 initState "a").2.metrics = initState.metrics
    ∧ (metricExists seriesW4 7 initState "a").2.calls =
        initState.calls ++ [⟨"a", 0, 7⟩]
    ∧ metricExists seriesW4 7 (metricExists seriesW4 7 initState "a").2 "a" =
        (.ok (decide (0 < 1)),
         { metrics := initState.metrics ++ [("a", decide (0 < 1))],
           calls := initState.calls ++ [⟨"a", 0, 7⟩, ⟨"a", 0, 7⟩] }) :=
  failed_check_not_cached seriesW4 7 initState "a" "boom" 1
    (by decide) (by decide) (by decide)

/-- C5: once the initial rule listing has succeeded, the driver never
aborts: `run` returns an error exactly when the configuration is invalid
(missing address or bad scheme) or the initial listing failed; a parse
failure on one rule contributes a single diagnostic and processing
continues with the remaining rules; an existence-check failure on one
metric contributes a single diagnostic and processing continues with the
remaining metrics. -/
theorem driver_never_aborts_after_listing (env : RunEnv) :
    ((∃ e, run env = .error e) ↔
      (env.urlArg = ""
        ∨ (urlScheme env.urlArg ≠ "http" ∧ urlScheme env.urlArg ≠ "https")
        ∨ ∃ e, env.rulesResp = .error e))
    ∧ (∀ r rs st e, env.parse r = .error e →
        processRules env.parse env.series env.now env.mapOrder (r :: rs) st =
          (.parseError e ::
            (processRules env.parse env.series env.now env.mapOrder rs st).1,
           (processRules env.parse env.series env.now env.mapOrder rs st).2))
    ∧ (∀ rule m ms st e st1,
        metricExists env.series env.now st m = (.error e, st1) →
        checkMetrics env.series env.now rule (m :: ms) st =
          (.checkError e :: (checkMetrics env.series env.now rule ms st1).1,
           (checkMetrics env.series env.now rule ms st1).2)) := by
  refine ⟨run_error_iff env, ?_, ?_⟩
  · intro r rs st e hp
    simp only [processRules, hp]
  · intro rule m ms st e st1 hme
    simp only [checkMetrics, hme]

/-- C5 witness: a rule whose parse fails yields one diagnostic and the
run goes on; a metric whose check fails yields one diagnostic and the
loop goes on. -/
theorem driver_never_aborts_after_listing_witness :
    processRules envW5.parse envW5.series envW5.now envW5.mapOrder ["bad"] initState =
      (.parseError "oops" ::
        (processRules envW5.parse envW5.series envW5.now envW5.mapOrder [] initState).1,
       (processRules envW5.parse envW5.series envW5.now envW5.mapOrder [] initState).2)
    ∧ checkMetrics envW5.series envW5.now "r" ["up"] initState =
        (.checkError ("failed to get metric " ++ "up" ++ ": " ++ "net") ::
          (checkMetrics envW5.series envW5.now "r" []
            (⟨[], [⟨"up", 0, 0⟩]⟩ : LinterState)).1,
         (checkMetrics envW5.series envW5.now "r" []
            (⟨[], [⟨"up", 0, 0⟩]⟩ : LinterState)).2) :=
  ⟨(driver_never_aborts_after_listing envW5).2.1 "bad" [] initState "oops" rfl,
   (driver_never_aborts_after_listing envW5).2.2 "r" "up" [] initState
     ("failed to get metric " ++ "up" ++ ": " ++ "net") ⟨[], [⟨"up", 0, 0⟩]⟩
     (by decide)⟩

/-- C6: `getRules` flattens the backend's nested group→rule structure
into a flat sequence preserving group order and within-group rule order,
where exactly the recording and alerting rules contribute their query
string and every other rule kind is skipped silently, without error. -/
theorem rules_flattened_in_order (groups : List RuleGroup) :
    getRules groups = specRuleQueries groups
    ∧ getRulesE (.ok groups) = .ok (specRuleQueries groups) := by
  refine ⟨getRules_eq_spec groups, ?_⟩
  simp [getRulesE, getRules_eq_spec groups]

/-- C7: for a name not in the cache, `metricExists` issues a backend
series query for that name over the window from the earliest representable
instant (0) to the current instant `now` — whatever the backend answers —
and when the backend returns a collection of `k` matched series it
returns, and caches, `true` iff that collection is non-empty. -/
theorem uncached_check_full_window
    (series : Nat → String → Nat → Nat → Except String Nat) (now : Nat)
    (st : LinterState) (name : String) (k : Nat)
    (hmiss : lookupCache st.metrics name = none) :
    (metricExists series now st name).2.calls = st.calls ++ [⟨name, 0, now⟩]
    ∧ (series st.calls.length name 0 now = .ok k →
        metricExists series now st name =
          (.ok (decide (0 < k)),
           { metrics := st.metrics ++ [(name, decide (0 < k))],
             calls := st.calls ++ [⟨name, 0, now⟩] })) := by
  refine ⟨?_, fun hk => metricExists_miss_ok hmiss hk⟩
  cases hs : series st.calls.length name 0 now with
  | error e => rw [metricExists_miss_error hmiss hs]
  | ok k2 => rw [metricExists_miss_ok hmiss hs]

/-- C7 witness: an uncached name is queried over [0, now] and a
two-series response is cached as `true`. -/
theorem uncached_check_full_window_witness :
    (metricExists (fun _ _ _ _ => Except.ok 2) 9 stW7 "a").2.calls =
      stW7.calls ++ [⟨"a", 0, 9⟩]
    ∧ metricExists (fun _ _ _ _ => Except.ok 2) 9 stW7 "a" =
        (.ok (decide (0 < 2)),
         { metrics := stW7.metrics ++ [("a", decide (0 < 2))],
           calls := stW7.calls ++ [⟨"a", 0, 9⟩] }) :=
  ⟨(uncached_check_full_window (fun _ _ _ _ => Except.ok 2) 9 stW7 "a" 2
      (by decide)).1,
   (uncached_check_full_window (fun _ _ _ _ => Except.ok 2) 9 stW7 "a" 2
      (by decide)).2 (by decide)⟩

/-- C8: when the configured backend address is missing (empty, hence
empty scheme) or its scheme is neither http nor https, the run aborts
with a configuration error before any backend interaction — the outcome
is the same for every backend rule listing and series oracle — and the
process completion status is the non-zero exit code 2. -/
theorem bad_scheme_aborts_before_backend (env : RunEnv)
    (hbad : urlScheme env.urlArg ≠ "http" ∧ urlScheme env.urlArg ≠ "https") :
    (∃ e, run env = .error e)
    ∧ mainExit env = 2
    ∧ (∀ resp1 series1 resp2 series2,
        run ⟨env.urlArg, env.parse, resp1, series1, env.now, env.mapOrder⟩ =
          run ⟨env.urlArg, env.parse, resp2, series2, env.now, env.mapOrder⟩) := by
  have h1 : ∀ (resp : Except String (List RuleGroup))
      (series : Nat → String → Nat → Nat → Except String Nat),
      run ⟨env.urlArg, env.parse, resp, series, env.now, env.mapOrder⟩ =
        (if env.urlArg = "" then .error "Missing -url parameter"
         else .error ("Invalid URL scheme: " ++ urlScheme env.urlArg)) := by
    intro resp series
    by_cases hu : env.urlArg = ""
    · rw [run, if_pos hu, if_pos hu]
    · rw [run, if_neg hu, if_pos hbad, if_neg hu]
  have h2 : run env =
      (if env.urlArg = "" then .error "Missing -url parameter"
       else .error ("Invalid URL scheme: " ++ urlScheme env.urlArg)) :=
    h1 env.rulesResp env.series
  refine ⟨?_, ?_, fun r1 s1 r2 s2 => (h1 r1 s1).trans (h1 r2 s2).symm⟩
  · by_cases hu : env.urlArg = ""
    · exact ⟨"Missing -url parameter", by rw [h2, if_pos hu]⟩
    · exact ⟨"Invalid URL scheme: " ++ urlScheme env.urlArg, by rw [h2, if_neg hu]⟩
  · rw [mainExit, h2]
    by_cases hu : env.urlArg = ""
    · rw [if_pos hu]
    · rw [if_neg hu]

/-- C8 witness: the address "ftp://x" aborts the run with exit code 2 and
the result does not depend on the backend oracles. -/
theorem bad_scheme_aborts_before_backend_witness :
    mainExit envW8 = 2
    ∧ run ⟨envW8.urlArg, envW8.parse, .ok [], envW8.series, envW8.now,
        envW8.mapOrder⟩ =
      run ⟨envW8.urlArg, envW8.parse, .error "down", fun _ _ _ _ => .error "x",
        envW8.now, envW8.mapOrder⟩ :=
  ⟨(bad_scheme_aborts_before_backend envW8 (by decide)).2.1,
   (bad_scheme_aborts_before_backend envW8 (by decide)).2.2
     (.ok []) envW8.series (.error "down") (fun _ _ _ _ => .error "x")⟩

/-- C9 (counterexample): two runs against the very same unchanged backend
(identical listing and series responses), whose only difference is the
order in which Go's map iteration hands back the extracted key set —
insertion order versus its reverse, both permutations of the same set —
emit the same findings as different sequences, so the emitted sequence of
findings is not determined by the backend alone. -/
theorem run_sequence_not_deterministic :
    (List.reverse (metricNames exprAB)).Perm (metricNames exprAB)
    ∧ run envOrd1 = .ok ([.finding "q" "a", .finding "q" "b"], stOrd1)
    ∧ run envOrd2 = .ok ([.finding "q" "b", .finding "q" "a"], stOrd2)
    ∧ run envOrd1 ≠ run envOrd2 := by decide

/-- C9 (amended): against an unchanged backend whose series responses
are determined by the metric name alone, the run is deterministic up to
the iteration order of each rule's extracted name set: rules are
processed in listing order, abort behaviour is identical, and the emitted
findings and diagnostics of two runs are permutations of each other —
the relative order of lines within one rule's block follows Go's
unspecified map iteration order. -/
theorem run_deterministic_up_to_map_order
    (urlArg : String) (parse : String → Except String Expr)
    (resp : Except String (List RuleGroup)) (f : String → Except String Nat)
    (now : Nat) (p1 p2 : List String → List String)
    (h1 : ∀ l, (p1 l).Perm l) (h2 : ∀ l, (p2 l).Perm l) :
    ((∃ e, run ⟨urlArg, parse, resp, constSeries f, now, p1⟩ = .error e) ↔
      (∃ e, run ⟨urlArg, parse, resp, constSeries f, now, p2⟩ = .error e))
    ∧ (∀ l1 s1 l2 s2,
        run ⟨urlArg, parse, resp, constSeries f, now, p1⟩ = .ok (l1, s1) →
        run ⟨urlArg, parse, resp, constSeries f, now, p2⟩ = .ok (l2, s2) →
        l1.Perm l2) := by
  constructor
  · rw [run_error_iff, run_error_iff]
  · intro l1 s1 l2 s2 hr1 hr2
    obtain ⟨hu, hsch, g1, hg1, hout1⟩ := run_ok_inv _ _ hr1
    obtain ⟨_, _, g2, hg2, hout2⟩ := run_ok_inv _ _ hr2
    rw [hg1] at hg2
    injection hg2 with hgg
    subst hgg
    have hl1 : l1 = (processRules parse (constSeries f) now p1 (getRules g1)
        initState).1 := congrArg Prod.fst hout1
    have hl2 : l2 = (processRules parse (constSeries f) now p2 (getRules g1)
        initState).1 := congrArg Prod.fst hout2
    rw [hl1, hl2,
      (processRules_const_lines parse f now p1 (getRules g1) initState
        (cacheOK_init f)).1,
      (processRules_const_lines parse f now p2 (getRules g1) initState
        (cacheOK_init f)).1]
    exact List.Perm.flatMap_left _ (fun r _ => ruleBlock_perm parse f h1 h2 r)

/-- C9 (amended) witness: the two concrete runs of the counterexample
scenario emit permutations of the same findings. -/
theorem run_deterministic_up_to_map_order_witness :
    List.Perm [Line.finding "q" "a", Line.finding "q" "b"]
      [Line.finding "q" "b", Line.finding "q" "a"] :=
  (run_deterministic_up_to_map_order "http://h" (fun _ => .ok exprAB)
      (.ok [⟨[.recording "q"]⟩]) (fun _ => .ok 0) 1 id List.reverse
      (fun l => List.Perm.refl l) (fun l => List.reverse_perm l)).2
    [Line.finding "q" "a", Line.finding "q" "b"] stOrd1
    [Line.finding "q" "b", Line.finding "q" "a"] stOrd2
    (by decide) (by decide)

/-- C10: against an unchanged backend under which metric `M` has no
matching series, the number of findings for `M` equals the number of
rules that reference `M` — findings are per (rule, metric) pair, not
deduplicated across rules — while the backend is asked about `M` at most
once; and every finding names a successfully parsed rule that references
the found metric and a metric the backend reported as series-less (so a
rule referencing no missing metric produces no finding). -/
theorem findings_per_referencing_rule
    (env : RunEnv) (groups : List RuleGroup) (f : String → Except String Nat)
    (M : String) (lines : List Line) (st : LinterState)
    (hseries : env.series = constSeries f)
    (hperm : ∀ l, (env.mapOrder l).Perm l)
    (hresp : env.rulesResp = .ok groups)
    (hM : f M = .ok 0)
    (hrun : run env = .ok (lines, st)) :
    (lines.filter (isFindingFor M)).length =
      ((getRules groups).filter (referencesMetric env.parse M)).length
    ∧ (callNames st).count M ≤ 1
    ∧ (∀ r m, Line.finding r m ∈ lines →
        ∃ ex, env.parse r = .ok ex ∧ m ∈ metricNames ex ∧ f m = .ok 0) := by
  obtain ⟨hu, hsch, groups', hresp', hout⟩ := run_ok_inv env (lines, st) hrun
  rw [hresp] at hresp'
  injection hresp' with hg
  subst hg
  rw [hseries] at hout
  have hlines : lines = (processRules env.parse (constSeries f) env.now
      env.mapOrder (getRules groups) initState).1 := congrArg Prod.fst hout
  have hst : st = (processRules env.parse (constSeries f) env.now
      env.mapOrder (getRules groups) initState).2 := congrArg Prod.snd hout
  have hfl := (processRules_const_lines env.parse f env.now env.mapOrder
    (getRules groups) initState (cacheOK_init f)).1
  refine ⟨?_, ?_, ?_⟩
  · rw [hlines, hfl]
    exact findings_count env.parse f env.mapOrder M hperm hM (getRules groups)
  · obtain ⟨_, _, hgood⟩ :=
      processRules_state env.parse (constSeries f) env.now env.mapOrder hperm
        (getRules groups) initState cacheSub_init
    rw [hst]
    exact (hgood M (fun idx s t => ⟨0, hM⟩) (goodName_init M)).1
  · intro r m hmem
    rw [hlines, hfl] at hmem
    obtain ⟨ex, hp, hmp, hf0⟩ := finding_source hmem
    exact ⟨ex, hp, (hperm (metricNames ex)).mem_iff.mp hmp, hf0⟩

/-- C10 witness: metric "miss" (no series) referenced by two rules yields
two findings, one per rule, with a single backend call for "miss". -/
theorem findings_per_referencing_rule_witness :
    (linesW10.filter (isFindingFor "miss")).length =
      ((getRules groupsW10).filter (referencesMetric envW10.parse "miss")).length
    ∧ (callNames stW10).count "miss" ≤ 1 :=
  ⟨(findings_per_referencing_rule envW10 groupsW10 fW10 "miss" linesW10 stW10
      rfl (fun l => List.Perm.refl l) rfl (by decide) (by decide)).1,
   (findings_per_referencing_rule envW10 groupsW10 fW10 "miss" linesW10 stW10
      rfl (fun l => List.Perm.refl l) rfl (by decide) (by decide)).2.1⟩

end Promlinter
